import Mathlib

/-!
Verification of the `reg-map` register-map accessor library.

Shallow embedding of the core of the `reg-map` crate:

* `src/integers.rs` — the supported scalar register types (`u8`..`u128`, `i8`..`i128`);
* `src/access.rs`   — the permission tags `ReadOnly`, `WriteOnly`, `ReadWrite` and the
  `Readable`/`Writable` capability predicates;
* `src/reg.rs`      — the scalar register handle `Reg` with volatile `read`/`write`;
* `src/bounds.rs`   — the bounds-check helpers `check_index` and `check_slice`;
* `src/arr.rs`      — the array handle `RegArray` with `idx`, `idx_unchecked`, `iter`,
  `iter_slice`;
* `src/iter.rs`     — the double-ended pointer iterator `RegArrayIter`;
* `reg-map-derive/src/lib.rs` — the derive macro's `check_repr` / `parse_field` /
  `parse_ret_type` checks.

Machine memory is modelled as a byte map `Nat → Nat` (each byte `< 256`); a volatile
access is an explicit event so that "no other visible effect than the single load/store"
is statable.  Pointers are plain `Nat` addresses; a handle is determined by its address
(the spec: "stateless beyond its address — equality/identity is by address").
Rust panics and compile-time rejections are modelled as `Except`/`Option` failures.
-/

namespace RegMap

/-- Byte-addressed memory: address to byte value. -/
def Mem : Type := Nat → Nat

/-- Store the `w`-byte little-endian encoding of `v` at address `a`
(the memory effect of `core::ptr::write_volatile` for a `w`-byte integer). -/
def storeBytes (m : Mem) (a : Nat) (w : Nat) (v : Nat) : Mem :=
  match w with
  | 0 => m
  | w' + 1 => storeBytes (Function.update m a (v % 256)) (a + 1) w' (v / 256)

/-- Load a `w`-byte little-endian value from address `a`
(the memory read of `core::ptr::read_volatile` for a `w`-byte integer). -/
def loadBytes (m : Mem) (a : Nat) (w : Nat) : Nat :=
  match w with
  | 0 => 0
  | w' + 1 => m a + 256 * loadBytes m (a + 1) w'

/-- A visible access event: one volatile load or one volatile store. -/
inductive Event : Type
  | load (addr : Nat) (width : Nat)
  | store (addr : Nat) (width : Nat) (bits : Nat)
  deriving DecidableEq, Repr

/-- A scalar register type: byte width plus signedness (from `src/integers.rs`,
`u8`..`u128` and `i8`..`i128`). -/
structure Ty : Type where
  width : Nat
  signed : Bool
  deriving DecidableEq, Repr

/-- The ten integer types implementing the sealed `Integer` trait in
`src/integers.rs` (`usize`/`isize` deliberately excluded). -/
def integerTypes : List Ty :=
  [⟨1, false⟩, ⟨2, false⟩, ⟨4, false⟩, ⟨8, false⟩, ⟨16, false⟩,
   ⟨1, true⟩, ⟨2, true⟩, ⟨4, true⟩, ⟨8, true⟩, ⟨16, true⟩]

/-- Value `v` is representable in type `t`: unsigned `0 ≤ v < 2^(8w)`,
signed `-2^(8w-1) ≤ v < 2^(8w-1)` (two's complement). -/
def Ty.representable (t : Ty) (v : Int) : Prop :=
  if t.signed then
    -(2 ^ (8 * t.width - 1) : Int) ≤ v ∧ v < (2 ^ (8 * t.width - 1) : Int)
  else
    0 ≤ v ∧ v < (2 ^ (8 * t.width) : Int)

instance (t : Ty) (v : Int) : Decidable (t.representable v) := by
  unfold Ty.representable; infer_instance

/-- Two's-complement bit pattern of `v` at width `w` bytes. -/
def encBits (w : Nat) (v : Int) : Nat :=
  (v % (2 ^ (8 * w) : Int)).toNat

/-- Decode a `w`-byte bit pattern as a value of type `t`
(unsigned: the pattern itself; signed: two's complement). -/
def decBits (t : Ty) (n : Nat) : Int :=
  if t.signed then
    if n < 2 ^ (8 * t.width - 1) then (n : Int) else (n : Int) - 2 ^ (8 * t.width)
  else
    (n : Int)

/-- The access-permission tags of `src/access.rs`: `ReadOnly`, `WriteOnly`,
`ReadWrite` (a sealed, closed set). -/
inductive Access : Type
  | readOnly
  | writeOnly
  | readWrite
  deriving DecidableEq, Repr

/-- The `Readable` marker trait: implemented exactly by `ReadOnly` and `ReadWrite`
(`src/access.rs` lines 57–58). -/
def Access.readable : Access → Bool
  | .readOnly => true
  | .writeOnly => false
  | .readWrite => true

/-- The `Writable` marker trait: implemented exactly by `WriteOnly` and `ReadWrite`
(`src/access.rs` lines 59–60). -/
def Access.writable : Access → Bool
  | .readOnly => false
  | .writeOnly => true
  | .readWrite => true

/-- The default access when no `#[reg(...)]` attribute is given
(`#[default] RW` in `reg-map-derive/src/lib.rs`). -/
def Access.default : Access := .readWrite

/-- A register handle (`Reg<'a, T, A>` of `src/reg.rs`): an address, the scalar
type `T`, and the permission tag `A`. -/
structure Reg : Type where
  addr : Nat
  ty : Ty
  acc : Access
  deriving DecidableEq, Repr

/-- Model of `Reg::read` (`src/reg.rs` line 60): available only under `A: Readable`
(modelled as `none` when the tag does not grant read — the method does not
exist); performs exactly one volatile load at `addr`. -/
def Reg.read (r : Reg) (m : Mem) : Option (Int × Event) :=
  if r.acc.readable then
    some (decBits r.ty (loadBytes m r.addr r.ty.width), Event.load r.addr r.ty.width)
  else
    none

/-- Model of `Reg::write` (`src/reg.rs` line 68): available only under `A: Writable`;
performs exactly one volatile store at `addr`. -/
def Reg.write (r : Reg) (v : Int) (m : Mem) : Option (Mem × Event) :=
  if r.acc.writable then
    some (storeBytes m r.addr r.ty.width (encBits r.ty.width v),
          Event.store r.addr r.ty.width (encBits r.ty.width v))
  else
    none

/-! Bounds checks (`src/bounds.rs`) -/

/-- Model of `check_index::<LEN>(index)` (`src/bounds.rs` line 9): indexes `[(); LEN]` at
`index`; a panic (out of bounds, i.e. `index ≥ LEN`) is modelled as `Except.error`. -/
def check_index (LEN index : Nat) : Except String Unit :=
  if index < LEN then Except.ok () else Except.error "index out of bounds"

/-- Model of `check_slice::<LEN>(start, end)` (`src/bounds.rs` line 22): slices
`[(); LEN]` with `start..end`; panics (modelled as `Except.error`) unless
`start ≤ end ∧ end ≤ LEN`. -/
def check_slice (LEN start stop : Nat) : Except String Unit :=
  if start ≤ stop ∧ stop ≤ LEN then Except.ok () else Except.error "slice out of bounds"

/-! Array handle (`src/arr.rs`)

`RegArray<'a, P, N>` holds a pointer to `N` contiguous elements of `P::Target`.
`stride` is the byte size of one element (`size_of::<P::Target>()`, fixed by the
resolved layout); `mk` is `P::from_nonnull` — the element-handle constructor,
which for scalars builds a `Reg`, for nested maps a derived map pointer, and for
sub-arrays a nested `RegArray` (the three sealed `ArrayElem` impls). -/

structure RegArray (α : Type) : Type where
  base : Nat
  stride : Nat
  len : Nat
  mkElem : Nat → α

/-- Model of `RegArray::idx_unchecked` (`src/arr.rs` line 75): `base.add(index)` — the
element handle at address `base + index * stride`, no bounds check. -/
def RegArray.idx_unchecked {α : Type} (a : RegArray α) (index : Nat) : α :=
  a.mkElem (a.base + index * a.stride)

/-- Model of `RegArray::idx` (`src/arr.rs` line 65): `check_index` then
`idx_unchecked`; the bounds-check panic propagates. -/
def RegArray.idx {α : Type} (a : RegArray α) (index : Nat) : Except String α :=
  match check_index a.len index with
  | Except.ok _ => Except.ok (a.idx_unchecked index)
  | Except.error e => Except.error e

/-! Double-ended array iterator (`src/iter.rs`)

`RegArrayIter` stores two pointers `start`/`end` (here `start`/`stop`, since
`end` is a Lean keyword) into the array; pointer arithmetic moves in units of
one element, i.e. by `stride` bytes. -/

structure RegArrayIter (α : Type) : Type where
  start : Nat
  stop : Nat
  stride : Nat
  mkElem : Nat → α

/-- Model of `RegArrayIter::new(base)` (`src/iter.rs` line 33): `start = base`,
`end = start.add(len)`. -/
def RegArrayIter.new {α : Type} (mkElem : Nat → α) (base len stride : Nat) :
    RegArrayIter α :=
  ⟨base, base + len * stride, stride, mkElem⟩

/-- Model of `ExactSizeIterator::len` (`src/iter.rs` line 144): `end.offset_from(start)`
in units of one element. -/
def RegArrayIter.len {α : Type} (it : RegArrayIter α) : Nat :=
  (it.stop - it.start) / it.stride

/-- Model of `impl Clone for RegArrayIter` (`src/iter.rs` line 22): a field-by-field copy. -/
def RegArrayIter.clone {α : Type} (it : RegArrayIter α) : RegArrayIter α :=
  ⟨it.start, it.stop, it.stride, it.mkElem⟩

/-- Model of `Iterator::next` (`src/iter.rs` line 100): if `len() == 0` yield nothing,
else return the element at `start` and move `start` forward by one stride
(`post_inc_start(1)` then `from_nonnull`). -/
def RegArrayIter.next {α : Type} (it : RegArrayIter α) :
    Option α × RegArrayIter α :=
  if it.len = 0 then (none, it)
  else (some (it.mkElem it.start), { it with start := it.start + it.stride })

/-- Model of `DoubleEndedIterator::next_back` (`src/iter.rs` line 162): if `len() == 0`
yield nothing, else move `end` backward by one stride and return the element at
the new `end` (`pre_dec_end(1)`). -/
def RegArrayIter.nextBack {α : Type} (it : RegArrayIter α) :
    Option α × RegArrayIter α :=
  if it.len = 0 then (none, it)
  else (some (it.mkElem (it.stop - it.stride)), { it with stop := it.stop - it.stride })

/-- Model of `Iterator::nth` (`src/iter.rs` line 123): if `n ≥ len()` set `start = end`
and yield nothing; else `post_inc_start(n)` then `next_unchecked()` — return the
element at `start + n·stride` and leave `start` at `start + (n+1)·stride`. -/
def RegArrayIter.nth {α : Type} (it : RegArrayIter α) (n : Nat) :
    Option α × RegArrayIter α :=
  if it.len ≤ n then (none, { it with start := it.stop })
  else (some (it.mkElem (it.start + n * it.stride)),
        { it with start := it.start + (n + 1) * it.stride })

/-- Model of `DoubleEndedIterator::nth_back` (`src/iter.rs` line 174): if `n ≥ len()` set
`end = start` and yield nothing; else `pre_dec_end(n)` then
`next_back_unchecked()` — move `end` down by `(n+1)` strides and return the
element there. -/
def RegArrayIter.nthBack {α : Type} (it : RegArrayIter α) (n : Nat) :
    Option α × RegArrayIter α :=
  if it.len ≤ n then (none, { it with stop := it.start })
  else (some (it.mkElem (it.stop - (n + 1) * it.stride)),
        { it with stop := it.stop - (n + 1) * it.stride })

/-- Model of `RegArray::iter` (`src/arr.rs` line 81): `RegArrayIter::new` over the whole
array. -/
def RegArray.iter {α : Type} (a : RegArray α) : RegArrayIter α :=
  RegArrayIter.new a.mkElem a.base a.len a.stride

/-- Model of `RegArray::iter_slice` (`src/arr.rs` line 90): `check_slice`, then an
iterator over the subslice starting at `base.add(start)` of length
`end - start`. -/
def RegArray.iter_slice {α : Type} (a : RegArray α) (start stop : Nat) :
    Except String (RegArrayIter α) :=
  match check_slice a.len start stop with
  | Except.ok _ =>
      Except.ok (RegArrayIter.new a.mkElem (a.base + start * a.stride)
        (stop - start) a.stride)
  | Except.error e => Except.error e

/-- The remaining elements of an iterator, front to back, obtained by repeated
`next` (the fuel is the reported length, which bounds the number of yields). -/
def RegArrayIter.toListAux {α : Type} (fuel : Nat) (it : RegArrayIter α) : List α :=
  match fuel with
  | 0 => []
  | fuel' + 1 =>
      match it.next with
      | (none, _) => []
      | (some x, it') => x :: RegArrayIter.toListAux fuel' it'

def RegArrayIter.toList {α : Type} (it : RegArrayIter α) : List α :=
  RegArrayIter.toListAux it.len it

/-- The remaining elements of an iterator, back to front, obtained by repeated
`next_back`. -/
def RegArrayIter.toListBackAux {α : Type} (fuel : Nat) (it : RegArrayIter α) :
    List α :=
  match fuel with
  | 0 => []
  | fuel' + 1 =>
      match it.nextBack with
      | (none, _) => []
      | (some x, it') => x :: RegArrayIter.toListBackAux fuel' it'

def RegArrayIter.toListBack {α : Type} (it : RegArrayIter α) : List α :=
  RegArrayIter.toListBackAux it.len it

/-- One forward step (the state after `next`). -/
def RegArrayIter.stepFwd {α : Type} (it : RegArrayIter α) : RegArrayIter α :=
  (it.next).2

/-- One backward step (the state after `next_back`). -/
def RegArrayIter.stepBwd {α : Type} (it : RegArrayIter α) : RegArrayIter α :=
  (it.nextBack).2

/-- The structural invariant of `RegArrayIter` (`src/iter.rs` lines 145–148:
pointers are inside the allocation, `start <= end`, and both are element-aligned,
so `end - start` is a multiple of the stride). `base`/`n` are the bounds of the
array the iterator was created from. -/
def RegArrayIter.Inv {α : Type} (base n : Nat) (it : RegArrayIter α) : Prop :=
  0 < it.stride ∧
  base ≤ it.start ∧
  it.start ≤ it.stop ∧
  it.stop ≤ base + n * it.stride ∧
  it.stride ∣ (it.start - base) ∧
  it.stride ∣ (it.stop - it.start)

/-- Well-formedness of an iterator viewed on its own: positive stride, ordered
pointers, and a whole number of elements between them (`src/iter.rs` type
invariant, lines 145–148). -/
def RegArrayIter.Wf {α : Type} (it : RegArrayIter α) : Prop :=
  0 < it.stride ∧ it.start ≤ it.stop ∧ it.stride ∣ (it.stop - it.start)

/-- Boolean success of an `Except` computation (Rust: "did not panic / did not
produce a compile error"). -/
def exceptIsOk {ε α : Type} : Except ε α → Bool
  | Except.ok _ => true
  | Except.error _ => false

/-! Layout resolver.

Modelled from the spec: the byte offsets of the generated accessor are those of
the platform's C structure layout — the derive macro requires `#[repr(C)]` and
takes addresses with `addr_of_mut!((*ptr).field)`, so the offset computation
itself is performed by the Rust compiler and is not part of this repository's
sources.  Spec §4.1: "sequential placement.  Maintain a running offset; for
each field in order, round the offset up to the field's own alignment, record
(offset, size), advance offset by size." A field is represented by its
(byteSize, alignment) pair; a scalar's natural alignment equals its width. -/

/-- Round `off` up to the next multiple of `al` (C layout padding rule). -/
def alignUp (off al : Nat) : Nat :=
  if al = 0 then off else ((off + al - 1) / al) * al

/-- Offsets of a field list, each field a `(size, align)` pair, walking the
fields in declaration order with a running offset. -/
def layoutOffsetsFrom (off : Nat) : List (Nat × Nat) → List Nat
  | [] => []
  | (sz, al) :: rest =>
      alignUp off al :: layoutOffsetsFrom (alignUp off al + sz) rest

def layoutOffsets (fields : List (Nat × Nat)) : List Nat :=
  layoutOffsetsFrom 0 fields

/-- Size/alignment of a scalar field of width `w` bytes: natural alignment
equals the width. -/
def scalarField (w : Nat) : Nat × Nat := (w, w)

/-! Derive macro checks (`reg-map-derive/src/lib.rs`). -/

/-- One item inside a `#[repr(...)]` attribute, as matched by `check_repr`
(`reg-map-derive/src/lib.rs` lines 215–259): `C`, `transparent`, `align(N)`,
`packed`, or anything else. -/
inductive ReprItem : Type
  | c
  | transparent
  | align (n : Nat)
  | packed
  | other
  deriving DecidableEq, Repr

/-- One step of `check_repr`'s `parse_nested_meta` closure: state is
`(repr_c, repr_align)`; `C` sets the flag, `align(N)` records `N` (recorded but
never used afterwards), `transparent`/`packed`/anything-else is an error. -/
def checkReprStep (st : Bool × Option Nat) (item : ReprItem) :
    Except String (Bool × Option Nat) :=
  match item with
  | ReprItem.c => Except.ok (true, st.2)
  | ReprItem.transparent =>
      Except.error "RegMap derive does not support #[repr(transparent)]"
  | ReprItem.align n => Except.ok (st.1, some n)
  | ReprItem.packed =>
      Except.error "RegMap derive does not support #[repr(packed)]"
  | ReprItem.other =>
      Except.error "RegMap derive found an unrecognized #[repr(...)] attribute"

/-- Walk of the repr items by `parse_nested_meta`: sequential, short-circuiting
on the first error. -/
def checkReprFold (st : Bool × Option Nat) : List ReprItem →
    Except String (Bool × Option Nat)
  | [] => Except.ok st
  | item :: rest =>
      match checkReprStep st item with
      | Except.ok st' => checkReprFold st' rest
      | Except.error e => Except.error e

/-- Model of `check_repr` (`reg-map-derive/src/lib.rs` line 215): walk the repr
items, then require that `#[repr(C)]` was seen. -/
def check_repr (items : List ReprItem) : Except String Unit :=
  match checkReprFold (false, none) items with
  | Except.ok st =>
      if st.1 then Except.ok () else Except.error "RegMap derive requires #[repr(C)]"
  | Except.error e => Except.error e

/-- The `RegAccess` enum of the derive macro (`RO`/`WO`/`RW`, with `RW` the
`#[default]`). -/
inductive RegAccess : Type
  | RO
  | WO
  | RW
  deriving DecidableEq, Repr

/-- The `#[default]` variant of `RegAccess`. -/
def regAccessDefault : RegAccess := RegAccess.RW

/-- The `ToTokens` mapping from the derive macro's `RegAccess` to the runtime
permission tags of `src/access.rs`. -/
def RegAccess.toAccess : RegAccess → Access
  | RegAccess.RO => Access.readOnly
  | RegAccess.WO => Access.writeOnly
  | RegAccess.RW => Access.readWrite

/-- A field type as seen by the derive macro: a path type (integer or nested
map name), an array type, or anything else (`syn::Type` variants other than
`Path` and `Array`). -/
inductive FieldTy : Type
  | path (ident : String)
  | arr (elem : FieldTy) (len : Nat)
  | otherTy
  deriving DecidableEq, Repr

/-- Model of `is_integer` (`reg-map-derive/src/lib.rs` line 166). -/
def is_integer (ident : String) : Bool :=
  ident = "u8" || ident = "u16" || ident = "u32" || ident = "u64" ||
  ident = "u128" || ident = "i8" || ident = "i16" || ident = "i32" ||
  ident = "i64" || ident = "i128"

/-- The return-type signature produced by `parse_ret_type`: `Reg<'a, T, A>`,
a derived `...Ptr<'a>`, or `RegArray<'a, inner, N>`. -/
inductive RetSig : Type
  | reg (ident : String) (access : RegAccess)
  | ptrTy (ident : String)
  | arrSig (inner : RetSig) (len : Nat)
  deriving DecidableEq, Repr

/-- A struct field as seen by the derive macro: name, type, and the optional
parsed `#[reg(...)]` attribute. -/
structure FieldDecl : Type where
  name : String
  ty : FieldTy
  regAttr : Option RegAccess
  deriving DecidableEq, Repr

/-- Model of `parse_ret_type` (`reg-map-derive/src/lib.rs` line 302): arrays
recurse; integer paths become `Reg` with the field's access (default `RW`);
other paths become nested map pointers; anything else is an error. -/
def parse_ret_type (attr : Option RegAccess) : FieldTy → Except String RetSig
  | FieldTy.arr elem len =>
      match parse_ret_type attr elem with
      | Except.ok inner => Except.ok (RetSig.arrSig inner len)
      | Except.error e => Except.error e
  | FieldTy.path ident =>
      if is_integer ident then
        Except.ok (RetSig.reg ident (attr.getD regAccessDefault))
      else
        Except.ok (RetSig.ptrTy ident)
  | FieldTy.otherTy =>
      Except.error "RegMap derive supports only field of type Path or Array"

/-- Model of `parse_field` (`reg-map-derive/src/lib.rs` line 261): the generated
zero-argument accessor method, identified by its name and return signature. -/
def parse_field (f : FieldDecl) : Except String (String × RetSig) :=
  match parse_ret_type f.regAttr f.ty with
  | Except.ok sig => Except.ok (f.name, sig)
  | Except.error e => Except.error e

/-- The derive input: the struct's `#[repr(...)]` items and its named fields. -/
structure DeriveInput : Type where
  reprs : List ReprItem
  fields : List FieldDecl

/-- Per-field accessor generation: `parse_field` over all fields, aborting on
the first error (the `?` propagation in `impl_reg`'s field loop). -/
def parseFields : List FieldDecl → Except String (List (String × RetSig))
  | [] => Except.ok []
  | f :: rest =>
      match parse_field f with
      | Except.error e => Except.error e
      | Except.ok m =>
          match parseFields rest with
          | Except.error e => Except.error e
          | Except.ok ms => Except.ok (m :: ms)

/-- Model of `impl_reg` (`reg-map-derive/src/lib.rs` line 26): `check_repr`,
then one accessor method per field; any failure aborts the whole generation
(`Except` — no partial accessor is ever produced). -/
def impl_reg (input : DeriveInput) : Except String (List (String × RetSig)) :=
  match check_repr input.reprs with
  | Except.error e => Except.error e
  | Except.ok _ => parseFields input.fields

/-! Load and store round-trip lemmas -/

theorem storeBytes_eq_of_lt (w : Nat) :
    ∀ (m : Mem) (a v a' : Nat), a' < a → storeBytes m a w v a' = m a' := by
  induction w with
  | zero => intro m a v a' _; rfl
  | succ w ih =>
      intro m a v a' h
      simp only [storeBytes]
      rw [ih _ _ _ _ (by omega)]
      exact Function.update_noteq (by omega) _ m

theorem storeBytes_eq_of_ge (w : Nat) :
    ∀ (m : Mem) (a v a' : Nat), a + w ≤ a' → storeBytes m a w v a' = m a' := by
  induction w with
  | zero => intro m a v a' _; rfl
  | succ w ih =>
      intro m a v a' h
      simp only [storeBytes]
      rw [ih _ _ _ _ (by omega)]
      exact Function.update_noteq (by omega) _ m

theorem loadBytes_storeBytes (w : Nat) :
    ∀ (m : Mem) (a v : Nat), loadBytes (storeBytes m a w v) a w = v % 256 ^ w := by
  induction w with
  | zero => intro m a v; simp [loadBytes, Nat.mod_one]
  | succ w ih =>
      intro m a v
      simp only [loadBytes, storeBytes]
      rw [storeBytes_eq_of_lt _ _ _ _ _ (by omega), Function.update_same, ih]
      have hdecomp : v % (256 * 256 ^ w) = v % 256 + 256 * (v / 256 % 256 ^ w) := by
        conv_lhs => rw [← Nat.div_add_mod (v % (256 * 256 ^ w)) 256]
        rw [Nat.mod_mul_right_div_self, Nat.mod_mod_of_dvd _ ⟨256 ^ w, rfl⟩]
        omega
      rw [pow_succ, mul_comm (256 ^ w) 256, hdecomp]

theorem encBits_lt (w : Nat) (v : Int) : encBits w v < 2 ^ (8 * w) := by
  have h2 : (0 : Int) < 2 ^ (8 * w) := by positivity
  have h3 : ((2 ^ (8 * w) : Nat) : Int) = 2 ^ (8 * w) := by push_cast; ring
  have h4 := Int.emod_lt_of_pos v h2
  have hnn := Int.emod_nonneg v (ne_of_gt h2)
  rw [← h3] at h4 hnn
  unfold encBits
  rw [← h3]
  omega

theorem two_pow_8w_eq (w : Nat) : (2 : Nat) ^ (8 * w) = 256 ^ w := by
  rw [pow_mul]
  norm_num

/-- Decoding the stored bit pattern of a representable value gives the value back. -/
theorem decBits_encBits (t : Ty) (v : Int) (hw : 0 < t.width)
    (hv : t.representable v) : decBits t (encBits t.width v) = v := by
  unfold Ty.representable at hv
  unfold decBits encBits
  have hBA : (2 : Nat) ^ (8 * t.width) = 2 * 2 ^ (8 * t.width - 1) := by
    rw [← pow_succ']
    congr 1
    omega
  have hA : ((2 ^ (8 * t.width - 1) : Nat) : Int) = 2 ^ (8 * t.width - 1) := by
    push_cast; ring
  have hB : ((2 ^ (8 * t.width) : Nat) : Int) = 2 ^ (8 * t.width) := by
    push_cast; ring
  have hApos : (0 : Nat) < 2 ^ (8 * t.width - 1) := by positivity
  by_cases hs : t.signed = true
  · simp only [hs, if_true] at hv ⊢
    rw [← hA] at hv
    rw [← hB]
    by_cases h0 : 0 ≤ v
    · have hmod : v % ((2 ^ (8 * t.width) : Nat) : Int) = v :=
        Int.emod_eq_of_lt h0 (by omega)
      rw [hmod]
      split <;> omega
    · have hmod : v % ((2 ^ (8 * t.width) : Nat) : Int) =
          v + ((2 ^ (8 * t.width) : Nat) : Int) := by
        have h1 : (v + ((2 ^ (8 * t.width) : Nat) : Int)) %
            ((2 ^ (8 * t.width) : Nat) : Int) =
            v % ((2 ^ (8 * t.width) : Nat) : Int) := by simp
        rw [← h1, Int.emod_eq_of_lt (by omega) (by omega)]
      rw [hmod]
      split <;> omega
  · simp only [Bool.not_eq_true] at hs
    simp only [hs, Bool.false_eq_true, if_false] at hv ⊢
    rw [← hB] at hv
    rw [← hB]
    have hmod : v % ((2 ^ (8 * t.width) : Nat) : Int) = v :=
      Int.emod_eq_of_lt hv.1 hv.2
    rw [hmod]
    omega

/-! Iterator lemmas -/

theorem RegArrayIter.len_of_stop_eq {α : Type} {it : RegArrayIter α} {L : Nat}
    (hs : 0 < it.stride) (hstop : it.stop = it.start + it.stride * L) :
    it.len = L := by
  unfold RegArrayIter.len
  rw [hstop, Nat.add_sub_cancel_left _ _, Nat.mul_div_cancel_left _ hs]

theorem RegArrayIter.len_spec {α : Type} {it : RegArrayIter α} (h : it.Wf) :
    it.stop = it.start + it.stride * it.len := by
  obtain ⟨hs, hse, k, hk⟩ := h
  have hlen : it.len = k := by
    unfold RegArrayIter.len
    rw [hk, Nat.mul_div_cancel_left _ hs]
  rw [hlen]
  omega

theorem RegArrayIter.stepFwd_facts {α : Type} {it : RegArrayIter α} (h : it.Wf) :
    (it.stepFwd).Wf ∧ (it.stepFwd).len = it.len - 1 := by
  by_cases hl : it.len = 0
  · unfold RegArrayIter.stepFwd RegArrayIter.next
    rw [if_pos hl]
    exact ⟨h, by show it.len = it.len - 1; omega⟩
  · have hS := RegArrayIter.len_spec h
    obtain ⟨a, b, s, f⟩ := it
    obtain ⟨hs, hse, hd⟩ := h
    have hnext : (RegArrayIter.mk a b s f).next =
        (some (f a), RegArrayIter.mk (a + s) b s f) := by
      unfold RegArrayIter.next
      rw [if_neg hl]
    have hLpos : 0 < (RegArrayIter.mk a b s f).len := Nat.pos_of_ne_zero hl
    have hmul : s * (RegArrayIter.mk a b s f).len
        = s * ((RegArrayIter.mk a b s f).len - 1) + s := by
      obtain ⟨n, hn⟩ : ∃ n, (RegArrayIter.mk a b s f).len = n + 1 :=
        ⟨_, (Nat.succ_pred_eq_of_pos hLpos).symm⟩
      rw [hn]
      simp [Nat.mul_succ]
    have hSc : b = a + s * (RegArrayIter.mk a b s f).len := hS
    have hb : b = (a + s) + s * ((RegArrayIter.mk a b s f).len - 1) := by omega
    unfold RegArrayIter.stepFwd
    rw [hnext]
    refine ⟨⟨hs, by show a + s ≤ b; omega, ?_⟩, RegArrayIter.len_of_stop_eq hs hb⟩
    exact ⟨(RegArrayIter.mk a b s f).len - 1,
      by show b - (a + s) = s * ((RegArrayIter.mk a b s f).len - 1); omega⟩

theorem RegArrayIter.stepBwd_facts {α : Type} {it : RegArrayIter α} (h : it.Wf) :
    (it.stepBwd).Wf ∧ (it.stepBwd).len = it.len - 1 := by
  by_cases hl : it.len = 0
  · unfold RegArrayIter.stepBwd RegArrayIter.nextBack
    rw [if_pos hl]
    exact ⟨h, by show it.len = it.len - 1; omega⟩
  · have hS := RegArrayIter.len_spec h
    obtain ⟨a, b, s, f⟩ := it
    obtain ⟨hs, hse, hd⟩ := h
    have hnext : (RegArrayIter.mk a b s f).nextBack =
        (some (f (b - s)), RegArrayIter.mk a (b - s) s f) := by
      unfold RegArrayIter.nextBack
      rw [if_neg hl]
    have hLpos : 0 < (RegArrayIter.mk a b s f).len := Nat.pos_of_ne_zero hl
    have hmul : s * (RegArrayIter.mk a b s f).len
        = s * ((RegArrayIter.mk a b s f).len - 1) + s := by
      obtain ⟨n, hn⟩ : ∃ n, (RegArrayIter.mk a b s f).len = n + 1 :=
        ⟨_, (Nat.succ_pred_eq_of_pos hLpos).symm⟩
      rw [hn]
      simp [Nat.mul_succ]
    have hSc : b = a + s * (RegArrayIter.mk a b s f).len := hS
    have hb : b - s = a + s * ((RegArrayIter.mk a b s f).len - 1) := by omega
    unfold RegArrayIter.stepBwd
    rw [hnext]
    refine ⟨⟨hs, by show a ≤ b - s; omega, ?_⟩, RegArrayIter.len_of_stop_eq hs hb⟩
    exact ⟨(RegArrayIter.mk a b s f).len - 1,
      by show (b - s) - a = s * ((RegArrayIter.mk a b s f).len - 1); omega⟩

theorem RegArrayIter.toListAux_eq {α : Type} (L : Nat) :
    ∀ (a b s : Nat) (f : Nat → α), 0 < s → b = a + s * L →
    RegArrayIter.toListAux L (RegArrayIter.mk a b s f) =
      (List.range L).map (fun i => f (a + i * s)) := by
  induction L with
  | zero => intro a b s f hs hb; simp [RegArrayIter.toListAux]
  | succ L ih =>
      intro a b s f hs hb
      have hlen : (RegArrayIter.mk a b s f).len = L + 1 :=
        RegArrayIter.len_of_stop_eq hs hb
      have hnext : (RegArrayIter.mk a b s f).next =
          (some (f a), RegArrayIter.mk (a + s) b s f) := by
        unfold RegArrayIter.next
        rw [hlen, if_neg (Nat.succ_ne_zero L)]
      have hmul : s * (L + 1) = s * L + s := Nat.mul_succ s L
      simp only [RegArrayIter.toListAux, hnext]
      rw [ih (a + s) b s f hs (by omega)]
      rw [List.range_succ_eq_map, List.map_cons, List.map_map]
      congr 1
      · exact congrArg f (by omega)
      · apply List.map_congr_left
        intro i _
        simp only [Function.comp, Nat.succ_eq_add_one]
        refine congrArg f ?_
        have e2 : (i + 1) * s = i * s + s := by ring
        omega

theorem RegArrayIter.toListBackAux_eq {α : Type} (L : Nat) :
    ∀ (a b s : Nat) (f : Nat → α), 0 < s → b = a + s * L →
    RegArrayIter.toListBackAux L (RegArrayIter.mk a b s f) =
      (List.range L).map (fun i => f (b - (i + 1) * s)) := by
  induction L with
  | zero => intro a b s f hs hb; simp [RegArrayIter.toListBackAux]
  | succ L ih =>
      intro a b s f hs hb
      have hlen : (RegArrayIter.mk a b s f).len = L + 1 :=
        RegArrayIter.len_of_stop_eq hs hb
      have hnext : (RegArrayIter.mk a b s f).nextBack =
          (some (f (b - s)), RegArrayIter.mk a (b - s) s f) := by
        unfold RegArrayIter.nextBack
        rw [hlen, if_neg (Nat.succ_ne_zero L)]
      have hmul : s * (L + 1) = s * L + s := Nat.mul_succ s L
      simp only [RegArrayIter.toListBackAux, hnext]
      rw [ih a (b - s) s f hs (by omega)]
      rw [List.range_succ_eq_map, List.map_cons, List.map_map]
      congr 1
      · exact congrArg f (by omega)
      · apply List.map_congr_left
        intro i _
        simp only [Function.comp, Nat.succ_eq_add_one]
        refine congrArg f ?_
        have h1 : (i + 1 + 1) * s = (i + 1) * s + s := by ring
        have h2 : (i + 1) * s = i * s + s := by ring
        omega

theorem RegArrayIter.backList_reverse {α : Type} (a b s L : Nat) (f : Nat → α)
    (hb : b = a + s * L) :
    (List.range L).map (fun i => f (b - (i + 1) * s)) =
      ((List.range L).map (fun i => f (a + i * s))).reverse := by
  apply List.ext_getElem
  · simp
  · intro i h1 h2
    simp only [List.getElem_reverse, List.getElem_map, List.getElem_range,
      List.length_map, List.length_range]
    refine congrArg f ?_
    have hi : i < L := by simpa using h1
    have e2 : (i + 1) * s = i * s + s := by ring
    have h4 : (i + 1) * s ≤ L * s := Nat.mul_le_mul_right s (by omega)
    have h3 : (L - 1 - i) * s = L * s - (i + 1) * s := by
      rw [Nat.sub_mul, Nat.sub_mul, one_mul]
      omega
    have h5 : s * L = L * s := Nat.mul_comm s L
    omega

theorem RegArrayIter.toList_eq {α : Type} {it : RegArrayIter α} (h : it.Wf) :
    it.toList =
      (List.range it.len).map (fun i => it.mkElem (it.start + i * it.stride)) := by
  have hS := RegArrayIter.len_spec h
  obtain ⟨a, b, s, f⟩ := it
  obtain ⟨hs, _, _⟩ := h
  exact RegArrayIter.toListAux_eq _ a b s f hs hS

theorem RegArrayIter.toListBack_eq {α : Type} {it : RegArrayIter α} (h : it.Wf) :
    it.toListBack =
      (List.range it.len).map (fun i => it.mkElem (it.stop - (i + 1) * it.stride)) := by
  have hS := RegArrayIter.len_spec h
  obtain ⟨a, b, s, f⟩ := it
  obtain ⟨hs, _, _⟩ := h
  exact RegArrayIter.toListBackAux_eq _ a b s f hs hS

theorem RegArrayIter.iterate_fwd_len {α : Type} {it : RegArrayIter α} (h : it.Wf) :
    ∀ k, (RegArrayIter.stepFwd^[k] it).Wf ∧
      (RegArrayIter.stepFwd^[k] it).len = it.len - k := by
  intro k
  induction k with
  | zero => simp only [Function.iterate_zero_apply]; exact ⟨h, by omega⟩
  | succ k ih =>
      rw [Function.iterate_succ_apply']
      obtain ⟨hw, hlen⟩ := ih
      obtain ⟨hw2, hlen2⟩ := RegArrayIter.stepFwd_facts hw
      exact ⟨hw2, by omega⟩

theorem RegArrayIter.iterate_bwd_len {α : Type} {it : RegArrayIter α} (h : it.Wf) :
    ∀ k, (RegArrayIter.stepBwd^[k] it).Wf ∧
      (RegArrayIter.stepBwd^[k] it).len = it.len - k := by
  intro k
  induction k with
  | zero => simp only [Function.iterate_zero_apply]; exact ⟨h, by omega⟩
  | succ k ih =>
      rw [Function.iterate_succ_apply']
      obtain ⟨hw, hlen⟩ := ih
      obtain ⟨hw2, hlen2⟩ := RegArrayIter.stepBwd_facts hw
      exact ⟨hw2, by omega⟩

/-! The claims -/

/-- C1: for a scalar register field whose permission tag grants both read and
write (`ReadWrite`), and any representable value `v` of the field's integer
type (`u8`..`u128`, `i8`..`i128`), `write(v)` performs exactly one volatile
store of the encoded bits at the handle's address, after which `read()` on the
same handle performs exactly one volatile load and returns exactly `v`; no
byte outside the register's `[addr, addr + width)` range is affected. -/
theorem c1_write_read_roundtrip (r : Reg) (m : Mem) (v : Int)
    (hacc : r.acc = Access.readWrite)
    (hty : r.ty ∈ integerTypes)
    (hv : r.ty.representable v) :
    r.write v m = some (storeBytes m r.addr r.ty.width (encBits r.ty.width v),
      Event.store r.addr r.ty.width (encBits r.ty.width v)) ∧
    r.read (storeBytes m r.addr r.ty.width (encBits r.ty.width v)) =
      some (v, Event.load r.addr r.ty.width) ∧
    ∀ a', a' < r.addr ∨ r.addr + r.ty.width ≤ a' →
      storeBytes m r.addr r.ty.width (encBits r.ty.width v) a' = m a' := by
  have hw : 0 < r.ty.width := by
    simp only [integerTypes, List.mem_cons, List.not_mem_nil, or_false] at hty
    rcases hty with h | h | h | h | h | h | h | h | h | h <;> rw [h] <;> norm_num
  refine ⟨?_, ?_, ?_⟩
  · unfold Reg.write
    rw [hacc]
    rfl
  · unfold Reg.read
    rw [hacc]
    simp only [Access.readable, if_true]
    rw [loadBytes_storeBytes, ← two_pow_8w_eq, Nat.mod_eq_of_lt (encBits_lt _ _),
      decBits_encBits r.ty v hw hv]
  · intro a' ha'
    rcases ha' with h | h
    · exact storeBytes_eq_of_lt _ _ _ _ _ h
    · exact storeBytes_eq_of_ge _ _ _ _ _ h

/-- Witness for C1: a one-byte unsigned read-write register at address 0,
value 5, zeroed memory. -/
theorem c1_write_read_roundtrip_witness :
    (Reg.mk 0 (Ty.mk 1 false) Access.readWrite).acc = Access.readWrite ∧
    (Reg.mk 0 (Ty.mk 1 false) Access.readWrite).ty ∈ integerTypes ∧
    (Ty.mk 1 false).representable 5 ∧
    (Reg.mk 0 (Ty.mk 1 false) Access.readWrite).read
        (storeBytes (fun _ => 0) 0 1 (encBits 1 5)) =
      some (5, Event.load 0 1) :=
  ⟨rfl, by decide, by decide,
    (c1_write_read_roundtrip (Reg.mk 0 (Ty.mk 1 false) Access.readWrite)
      (fun _ => 0) 5 rfl (by decide) (by decide)).2.1⟩

/-- C2: offsets follow sequential C layout — each field is placed at the
running offset rounded up to the field's own alignment, in declaration order;
concretely `f1: u64, f2: u32` resolves to `f1@0, f2@8` and `f1: u8, f2: u16`
resolves to `f1@0, f2@2` (one padding byte). -/
theorem c2_offset_correctness :
    (∀ (off sz al : Nat) (rest : List (Nat × Nat)),
      layoutOffsetsFrom off ((sz, al) :: rest) =
        alignUp off al :: layoutOffsetsFrom (alignUp off al + sz) rest) ∧
    layoutOffsets [scalarField 8, scalarField 4] = [0, 8] ∧
    layoutOffsets [scalarField 1, scalarField 2] = [0, 2] :=
  ⟨fun _ _ _ _ => rfl, by decide, by decide⟩

/-- C3: `read` exists (succeeds) iff the tag is `ReadOnly` or `ReadWrite`,
`write` exists iff the tag is `WriteOnly` or `ReadWrite`, and the untagged
default is `ReadWrite`; a disallowed operation is rejected (no method), never a
silent no-op. -/
theorem c3_permission_gating (r : Reg) (m : Mem) (v : Int) :
    ((r.read m).isSome = true ↔ (r.acc = Access.readOnly ∨ r.acc = Access.readWrite)) ∧
    ((r.write v m).isSome = true ↔ (r.acc = Access.writeOnly ∨ r.acc = Access.readWrite)) ∧
    Access.default = Access.readWrite ∧
    regAccessDefault.toAccess = Access.readWrite := by
  unfold Reg.read Reg.write
  rcases r with ⟨ad, ty, acc⟩
  cases acc <;>
    simp [Access.readable, Access.writable, Access.default, regAccessDefault,
      RegAccess.toAccess]

/-- C4: indexing an array handle at any in-bounds `i` yields the element
handle at address `base + i * stride` (for any element kind — the constructor
`mkElem` is arbitrary), and the checked and unchecked operations agree. -/
theorem c4_index_address {α : Type} (arr : RegArray α) (i : Nat)
    (h : i < arr.len) :
    arr.idx i = Except.ok (arr.mkElem (arr.base + i * arr.stride)) ∧
    arr.idx_unchecked i = arr.mkElem (arr.base + i * arr.stride) := by
  unfold RegArray.idx RegArray.idx_unchecked check_index
  rw [if_pos h]
  exact ⟨rfl, rfl⟩

/-- Witness for C4: array at base 100, stride 4, length 3, indexed at 2. -/
theorem c4_index_address_witness :
    2 < 3 ∧
    (RegArray.mk 100 4 3 (fun a => a)).idx 2 = Except.ok 108 ∧
    (RegArray.mk 100 4 3 (fun a => a)).idx_unchecked 2 = 108 :=
  ⟨by decide,
    (c4_index_address (RegArray.mk 100 4 3 (fun a => a)) 2 (by decide)).1,
    (c4_index_address (RegArray.mk 100 4 3 (fun a => a)) 2 (by decide)).2⟩

/-- C5: checked indexing panics iff `i ≥ N`; `iter_slice(start, end)` panics
iff `start > end` or `end > N`; and for every `a ≤ N`, `iter_slice(a, a)`
succeeds and yields an empty, immediately-exhausted iterator. -/
theorem c5_bounds_errors {α : Type} (arr : RegArray α) (i s e a : Nat)
    (ha : a ≤ arr.len) :
    (exceptIsOk (arr.idx i) = false ↔ arr.len ≤ i) ∧
    (exceptIsOk (arr.iter_slice s e) = false ↔ (e < s ∨ arr.len < e)) ∧
    arr.iter_slice a a = Except.ok
      (RegArrayIter.new arr.mkElem (arr.base + a * arr.stride) 0 arr.stride) ∧
    (RegArrayIter.new arr.mkElem (arr.base + a * arr.stride) 0 arr.stride).len
      = 0 ∧
    ((RegArrayIter.new arr.mkElem (arr.base + a * arr.stride) 0 arr.stride).next).1
      = none ∧
    ((RegArrayIter.new arr.mkElem (arr.base + a * arr.stride) 0
      arr.stride).nextBack).1 = none ∧
    (RegArrayIter.new arr.mkElem (arr.base + a * arr.stride) 0 arr.stride).toList
      = [] := by
  have hlen0 : (RegArrayIter.new arr.mkElem (arr.base + a * arr.stride) 0
      arr.stride).len = 0 := by
    show (arr.base + a * arr.stride + 0 * arr.stride - (arr.base + a * arr.stride))
      / arr.stride = 0
    simp
  refine ⟨?_, ?_, ?_, hlen0, ?_, ?_, ?_⟩
  · by_cases hi : i < arr.len
    · simp only [RegArray.idx, check_index, if_pos hi, exceptIsOk]
      constructor
      · intro hfalse; cases hfalse
      · omega
    · simp only [RegArray.idx, check_index, if_neg hi, exceptIsOk]
      constructor
      · intro _; omega
      · intro _; trivial
  · by_cases hc : s ≤ e ∧ e ≤ arr.len
    · simp only [RegArray.iter_slice, check_slice, if_pos hc, exceptIsOk]
      constructor
      · intro hfalse; cases hfalse
      · omega
    · simp only [RegArray.iter_slice, check_slice, if_neg hc, exceptIsOk]
      constructor
      · intro _; omega
      · intro _; trivial
  · unfold RegArray.iter_slice check_slice
    rw [if_pos ⟨le_refl a, ha⟩]
    rw [Nat.sub_self]
  · unfold RegArrayIter.next
    rw [if_pos hlen0]
  · unfold RegArrayIter.nextBack
    rw [if_pos hlen0]
  · unfold RegArrayIter.toList
    rw [hlen0]
    rfl

/-- Witness for C5: array of length 3, slice bounds checked at concrete
indices, empty slice at 2. -/
theorem c5_bounds_errors_witness :
    2 ≤ 3 ∧
    (exceptIsOk ((RegArray.mk 100 4 3 (fun x => x)).idx 3) = false ↔ 3 ≤ 3) ∧
    (RegArray.mk 100 4 3 (fun x => x)).iter_slice 2 2 = Except.ok
      (RegArrayIter.new (fun x => x) (100 + 2 * 4) 0 4) :=
  ⟨by decide,
    (c5_bounds_errors (RegArray.mk 100 4 3 (fun x => x)) 3 0 0 2 (by decide)).1,
    (c5_bounds_errors (RegArray.mk 100 4 3 (fun x => x)) 3 0 0 2
      (by decide)).2.2.1⟩

/-- C6: forward iteration over an array of length N yields exactly the N
element handles in index order 0..N-1; backward iteration yields the same
handles in reverse order; and after `k` forward or backward advances the
iterator reports exactly `N - k` remaining elements. -/
theorem c6_iteration_order {α : Type} (arr : RegArray α) (hs : 0 < arr.stride) :
    (arr.iter).toList =
      (List.range arr.len).map (fun i => arr.mkElem (arr.base + i * arr.stride)) ∧
    (arr.iter).toListBack = ((arr.iter).toList).reverse ∧
    (∀ k, (RegArrayIter.stepFwd^[k] arr.iter).len = arr.len - k) ∧
    (∀ k, (RegArrayIter.stepBwd^[k] arr.iter).len = arr.len - k) := by
  have hmc := Nat.mul_comm arr.len arr.stride
  have hwf : (arr.iter).Wf := by
    refine ⟨hs, ?_, ⟨arr.len, ?_⟩⟩
    · show arr.base ≤ arr.base + arr.len * arr.stride
      omega
    · show arr.base + arr.len * arr.stride - arr.base = arr.stride * arr.len
      omega
  have hlen : (arr.iter).len = arr.len := by
    refine RegArrayIter.len_of_stop_eq hs ?_
    show arr.base + arr.len * arr.stride = arr.base + arr.stride * arr.len
    omega
  refine ⟨?_, ?_, ?_, ?_⟩
  · rw [RegArrayIter.toList_eq hwf, hlen]
    rfl
  · rw [RegArrayIter.toListBack_eq hwf, RegArrayIter.toList_eq hwf, hlen]
    exact RegArrayIter.backList_reverse arr.base (arr.base + arr.len * arr.stride)
      arr.stride arr.len arr.mkElem (by omega)
  · intro k
    have hk := (RegArrayIter.iterate_fwd_len hwf k).2
    rw [hlen] at hk
    exact hk
  · intro k
    have hk := (RegArrayIter.iterate_bwd_len hwf k).2
    rw [hlen] at hk
    exact hk

/-- Witness for C6: array at base 100, stride 4, length 2. -/
theorem c6_iteration_order_witness :
    (0 : Nat) < 4 ∧
    ((RegArray.mk 100 4 2 (fun x => x)).iter).toList = [100, 104] ∧
    ((RegArray.mk 100 4 2 (fun x => x)).iter).toListBack =
      (((RegArray.mk 100 4 2 (fun x => x)).iter).toList).reverse :=
  ⟨by decide,
    (c6_iteration_order (RegArray.mk 100 4 2 (fun x => x)) (by decide)).1,
    (c6_iteration_order (RegArray.mk 100 4 2 (fun x => x)) (by decide)).2.1⟩

/-- C7: the iterator is fused — once exhausted, every further advance from
either end yields nothing and leaves it exhausted — and `nth`/`nth_back`
clamp: `n` at least the remaining length empties the iterator and yields
nothing; otherwise exactly `n` elements are skipped and the next one yielded. -/
theorem c7_fused_nth_clamp {α : Type} (it : RegArrayIter α) (h : it.Wf) :
    (it.len = 0 → it.next = (none, it) ∧ it.nextBack = (none, it)) ∧
    (∀ n, it.len ≤ n →
      (it.nth n).1 = none ∧ ((it.nth n).2).len = 0 ∧
      (it.nthBack n).1 = none ∧ ((it.nthBack n).2).len = 0) ∧
    (∀ n, n < it.len →
      (it.nth n).1 = some (it.mkElem (it.start + n * it.stride)) ∧
      ((it.nth n).2).len = it.len - n - 1 ∧
      (it.nthBack n).1 = some (it.mkElem (it.stop - (n + 1) * it.stride)) ∧
      ((it.nthBack n).2).len = it.len - n - 1) := by
  have hS := RegArrayIter.len_spec h
  obtain ⟨a, b, s, f⟩ := it
  obtain ⟨hs, hse, hd⟩ := h
  refine ⟨?_, ?_, ?_⟩
  · intro hl
    unfold RegArrayIter.next RegArrayIter.nextBack
    rw [if_pos hl]
    rw [if_pos hl]
    exact ⟨rfl, rfl⟩
  · intro n hn
    unfold RegArrayIter.nth RegArrayIter.nthBack
    rw [if_pos hn]
    rw [if_pos hn]
    refine ⟨rfl, ?_, rfl, ?_⟩
    · show (b - b) / s = 0
      simp
    · show (a - a) / s = 0
      simp
  · intro n hn
    unfold RegArrayIter.nth RegArrayIter.nthBack
    rw [if_neg (by omega)]
    rw [if_neg (by omega)]
    have hSc : b = a + s * (RegArrayIter.mk a b s f).len := hS
    have e1 : s * (RegArrayIter.mk a b s f).len
        = s * (n + 1) + s * ((RegArrayIter.mk a b s f).len - n - 1) := by
      rw [← Nat.mul_add]
      congr 1
      omega
    have e2 : (n + 1) * s = s * (n + 1) := Nat.mul_comm _ _
    refine ⟨rfl, ?_, rfl, ?_⟩
    · exact RegArrayIter.len_of_stop_eq hs
        (by show b = a + (n + 1) * s + s * ((RegArrayIter.mk a b s f).len - n - 1)
            omega)
    · exact RegArrayIter.len_of_stop_eq hs
        (by show b - (n + 1) * s
              = a + s * ((RegArrayIter.mk a b s f).len - n - 1)
            omega)

/-- Witness for C7: length-3 iterator; `nth 5` clamps to empty, `nth 1` skips
one element and yields the element handle at address 4. -/
theorem c7_fused_nth_clamp_witness :
    (RegArrayIter.new (fun x => x) 0 3 4).Wf ∧
    ((RegArrayIter.new (fun x => x) 0 3 4).nth 5).1 = none ∧
    (((RegArrayIter.new (fun x => x) 0 3 4).nth 5).2).len = 0 ∧
    ((RegArrayIter.new (fun x => x) 0 3 4).nth 1).1 = some 4 :=
  ⟨⟨by decide, by decide, by decide⟩,
    ((c7_fused_nth_clamp (RegArrayIter.new (fun x => x) 0 3 4)
      ⟨by decide, by decide, by decide⟩).2.1 5 (by decide)).1,
    ((c7_fused_nth_clamp (RegArrayIter.new (fun x => x) 0 3 4)
      ⟨by decide, by decide, by decide⟩).2.1 5 (by decide)).2.1,
    ((c7_fused_nth_clamp (RegArrayIter.new (fun x => x) 0 3 4)
      ⟨by decide, by decide, by decide⟩).2.2 1 (by decide)).1⟩

/-- C8: cloning an iterator copies both cursor pointers, producing an
independent cursor over the same remaining bounds: the clone yields the same
remaining forward and backward sequences, and — operations being pure
functions of one cursor value — advancing either copy computes a new cursor
without touching the other. -/
theorem c8_clone_independent {α : Type} (it : RegArrayIter α) (k : Nat) :
    it.clone = it ∧
    (it.clone).toList = it.toList ∧
    (it.clone).toListBack = it.toListBack ∧
    (RegArrayIter.stepFwd^[k] it.clone).toList =
      (RegArrayIter.stepFwd^[k] it).toList ∧
    (RegArrayIter.stepFwd^[k] it.clone).len = (RegArrayIter.stepFwd^[k] it).len :=
  ⟨rfl, rfl, rfl, rfl, rfl⟩

/-! Derive-macro lemmas for C9 -/

theorem checkReprFold_error_of_bad :
    ∀ (items : List ReprItem) (st : Bool × Option Nat),
      (ReprItem.packed ∈ items ∨ ReprItem.transparent ∈ items ∨
        ReprItem.other ∈ items) →
      ∃ msg, checkReprFold st items = Except.error msg := by
  intro items
  induction items with
  | nil => intro st h; simp at h
  | cons x rest ih =>
      intro st h
      cases x with
      | c =>
          have h' : ReprItem.packed ∈ rest ∨ ReprItem.transparent ∈ rest ∨
              ReprItem.other ∈ rest := by
            simpa using h
          obtain ⟨msg, he⟩ := ih (true, st.2) h'
          exact ⟨msg, by simpa [checkReprFold, checkReprStep] using he⟩
      | align m =>
          have h' : ReprItem.packed ∈ rest ∨ ReprItem.transparent ∈ rest ∨
              ReprItem.other ∈ rest := by
            simpa using h
          obtain ⟨msg, he⟩ := ih (st.1, some m) h'
          exact ⟨msg, by simpa [checkReprFold, checkReprStep] using he⟩
      | packed => exact ⟨_, rfl⟩
      | transparent => exact ⟨_, rfl⟩
      | other => exact ⟨_, rfl⟩

theorem checkReprFold_fst_of_no_c :
    ∀ (items : List ReprItem) (st st' : Bool × Option Nat),
      ReprItem.c ∉ items → checkReprFold st items = Except.ok st' →
      st'.1 = st.1 := by
  intro items
  induction items with
  | nil =>
      intro st st' _ h
      have hss : st = st' := by simpa [checkReprFold] using h
      rw [← hss]
  | cons x rest ih =>
      intro st st' hnc h
      cases x with
      | c => exact absurd (List.mem_cons_self _ _) hnc
      | packed => simp [checkReprFold, checkReprStep] at h
      | transparent => simp [checkReprFold, checkReprStep] at h
      | other => simp [checkReprFold, checkReprStep] at h
      | align m =>
          have hh : checkReprFold (st.1, some m) rest = Except.ok st' := by
            simpa [checkReprFold, checkReprStep] using h
          have hr := ih (st.1, some m) st'
            (fun hm => hnc (List.mem_cons_of_mem _ hm)) hh
          simpa using hr

theorem parseFields_error_of_bad :
    ∀ (fields : List FieldDecl),
      (∃ f ∈ fields, ∃ msg, parse_field f = Except.error msg) →
      ∃ msg, parseFields fields = Except.error msg := by
  intro fields
  induction fields with
  | nil => intro h; simp at h
  | cons g rest ih =>
      intro h
      obtain ⟨f, hmem, msg, he⟩ := h
      rcases List.mem_cons.mp hmem with rfl | hmem2
      · exact ⟨msg, by simp [parseFields, he]⟩
      · cases hg : parse_field g with
        | error msg2 => exact ⟨msg2, by simp [parseFields, hg]⟩
        | ok m =>
            obtain ⟨msg3, he3⟩ := ih ⟨f, hmem2, msg, he⟩
            exact ⟨msg3, by simp [parseFields, hg, he3]⟩

/-- C9: layout generation fails with a build-time error — and, the result
being a single `Except`, produces no partial accessor — whenever the
description requests a reduced-alignment (`packed`) representation or any
other unsupported representation (`transparent`, an unrecognized repr item, or
a missing `repr(C)`), or contains an unsupported field type; raising the
alignment with `repr(C, align(N))` is accepted for every `N`. -/
theorem c9_generation_errors (input : DeriveInput) (n : Nat) :
    (ReprItem.packed ∈ input.reprs → exceptIsOk (impl_reg input) = false) ∧
    (ReprItem.transparent ∈ input.reprs → exceptIsOk (impl_reg input) = false) ∧
    (ReprItem.other ∈ input.reprs → exceptIsOk (impl_reg input) = false) ∧
    (ReprItem.c ∉ input.reprs → exceptIsOk (impl_reg input) = false) ∧
    ((∃ f ∈ input.fields, ∃ msg, parse_field f = Except.error msg) →
      exceptIsOk (impl_reg input) = false) ∧
    exceptIsOk (impl_reg (DeriveInput.mk [ReprItem.c, ReprItem.align n]
      [FieldDecl.mk "f1" (FieldTy.path "u64") none])) = true := by
  refine ⟨?_, ?_, ?_, ?_, ?_, ?_⟩
  · intro hmem
    obtain ⟨msg, he⟩ :=
      checkReprFold_error_of_bad input.reprs (false, none) (Or.inl hmem)
    simp [impl_reg, check_repr, he, exceptIsOk]
  · intro hmem
    obtain ⟨msg, he⟩ :=
      checkReprFold_error_of_bad input.reprs (false, none) (Or.inr (Or.inl hmem))
    simp [impl_reg, check_repr, he, exceptIsOk]
  · intro hmem
    obtain ⟨msg, he⟩ :=
      checkReprFold_error_of_bad input.reprs (false, none) (Or.inr (Or.inr hmem))
    simp [impl_reg, check_repr, he, exceptIsOk]
  · intro hnc
    cases hf : checkReprFold (false, none) input.reprs with
    | error msg => simp [impl_reg, check_repr, hf, exceptIsOk]
    | ok st =>
        have hfst : st.1 = false :=
          checkReprFold_fst_of_no_c input.reprs (false, none) st hnc hf
        simp [impl_reg, check_repr, hf, hfst, exceptIsOk]
  · intro hbad
    obtain ⟨msg, he⟩ := parseFields_error_of_bad input.fields hbad
    cases hc : check_repr input.reprs with
    | error msg2 => simp [impl_reg, hc, exceptIsOk]
    | ok u => simp [impl_reg, hc, he, exceptIsOk]
  · rfl

/-- Witness for C9: a derive input carrying `#[repr(C, packed)]` is rejected. -/
theorem c9_generation_errors_witness :
    ReprItem.packed ∈ [ReprItem.c, ReprItem.packed] ∧
    exceptIsOk (impl_reg
      (DeriveInput.mk [ReprItem.c, ReprItem.packed] [])) = false :=
  ⟨by decide,
    (c9_generation_errors (DeriveInput.mk [ReprItem.c, ReprItem.packed] []) 0).1
      (by decide)⟩

/-! Invariant-preservation lemmas for C10 -/

theorem RegArrayIter.inv_start_add {α : Type} {base n : Nat}
    {it : RegArrayIter α} (h : it.Inv base n) (d : Nat) (hd : it.stride ∣ d)
    (hle : it.start + d ≤ it.stop) :
    RegArrayIter.Inv base n { it with start := it.start + d } := by
  obtain ⟨a, b, s, f⟩ := it
  obtain ⟨h1, h2, h3, h4, ⟨k1, hk1⟩, ⟨k3, hk3⟩⟩ := h
  obtain ⟨k2, hk2⟩ := hd
  simp only at h1 h2 h3 h4 hk1 hk3 hk2 hle
  have hk23 : k2 ≤ k3 := by
    have hmm : s * k2 ≤ s * k3 := by omega
    exact Nat.le_of_mul_le_mul_left hmm h1
  have hadd : s * (k1 + k2) = s * k1 + s * k2 := Nat.mul_add s k1 k2
  have hsub : s * (k3 - k2) = s * k3 - s * k2 := Nat.mul_sub s k3 k2
  have hmono : s * k2 ≤ s * k3 := Nat.mul_le_mul_left s hk23
  exact ⟨h1, by show base ≤ a + d; omega, by show a + d ≤ b; omega,
    by show b ≤ base + n * s; omega,
    ⟨k1 + k2, by show a + d - base = s * (k1 + k2); omega⟩,
    ⟨k3 - k2, by show b - (a + d) = s * (k3 - k2); omega⟩⟩

theorem RegArrayIter.inv_stop_sub {α : Type} {base n : Nat}
    {it : RegArrayIter α} (h : it.Inv base n) (d : Nat) (hd : it.stride ∣ d)
    (hle : d ≤ it.stop - it.start) :
    RegArrayIter.Inv base n { it with stop := it.stop - d } := by
  obtain ⟨a, b, s, f⟩ := it
  obtain ⟨h1, h2, h3, h4, ⟨k1, hk1⟩, ⟨k3, hk3⟩⟩ := h
  obtain ⟨k2, hk2⟩ := hd
  simp only at h1 h2 h3 h4 hk1 hk3 hk2 hle
  have hk23 : k2 ≤ k3 := by
    have hmm : s * k2 ≤ s * k3 := by omega
    exact Nat.le_of_mul_le_mul_left hmm h1
  have hsub : s * (k3 - k2) = s * k3 - s * k2 := Nat.mul_sub s k3 k2
  have hmono : s * k2 ≤ s * k3 := Nat.mul_le_mul_left s hk23
  exact ⟨h1, h2, by show a ≤ b - d; omega, by show b - d ≤ base + n * s; omega,
    ⟨k1, hk1⟩, ⟨k3 - k2, by show b - d - a = s * (k3 - k2); omega⟩⟩

/-- C10: the iterator maintains `start ≤ end` with both pointers inside the
original array's bounds through every operation — construction from a full
array or a valid slice `[s, e)`, forward advance, backward advance, `nth`,
`nth_back`, and clone; every successful advance from either end decreases the
reported remaining length by exactly one; and the remaining length always
equals `(end - start) / stride` (no underflow, since `start ≤ end` is
maintained). -/
theorem c10_iterator_invariant {α : Type} (mkE : Nat → α) (base n stride : Nat)
    (it : RegArrayIter α) (k s e : Nat) (hs : 0 < stride)
    (hsl : s ≤ e) (hel : e ≤ n) (hit : it.Inv base n) :
    (RegArrayIter.new mkE base n stride).Inv base n ∧
    (RegArrayIter.new mkE (base + s * stride) (e - s) stride).Inv base n ∧
    (it.stepFwd).Inv base n ∧
    (it.stepBwd).Inv base n ∧
    ((it.nth k).2).Inv base n ∧
    ((it.nthBack k).2).Inv base n ∧
    (it.clone).Inv base n ∧
    (0 < it.len →
      (it.next).1.isSome = true ∧ ((it.next).2).len = it.len - 1 ∧
      (it.nextBack).1.isSome = true ∧ ((it.nextBack).2).len = it.len - 1) ∧
    it.len = (it.stop - it.start) / it.stride := by
  have hwf : it.Wf := ⟨hit.1, hit.2.2.1, hit.2.2.2.2.2⟩
  have hspec := RegArrayIter.len_spec hwf
  have hlen1 : 0 < it.len → it.stride ≤ it.stop - it.start := by
    intro h0
    have hmm : it.stride * 1 ≤ it.stride * it.len :=
      Nat.mul_le_mul_left it.stride (by omega)
    omega
  refine ⟨?_, ?_, ?_, ?_, ?_, ?_, ?_, ?_, rfl⟩
  · have hmc : n * stride = stride * n := Nat.mul_comm n stride
    exact ⟨hs, by show base ≤ base; omega,
      by show base ≤ base + n * stride; omega,
      by show base + n * stride ≤ base + n * stride; omega,
      ⟨0, by show base - base = stride * 0; omega⟩,
      ⟨n, by show base + n * stride - base = stride * n; omega⟩⟩
  · have e1 : (e - s) * stride = e * stride - s * stride := Nat.sub_mul e s stride
    have e2 : s * stride ≤ e * stride := Nat.mul_le_mul_right stride hsl
    have e3 : e * stride ≤ n * stride := Nat.mul_le_mul_right stride hel
    have mc1 : s * stride = stride * s := Nat.mul_comm s stride
    have mc2 : (e - s) * stride = stride * (e - s) := Nat.mul_comm (e - s) stride
    have mc3 : n * stride = stride * n := Nat.mul_comm n stride
    exact ⟨hs, by show base ≤ base + s * stride; omega,
      by show base + s * stride ≤ base + s * stride + (e - s) * stride; omega,
      by show base + s * stride + (e - s) * stride ≤ base + n * stride; omega,
      ⟨s, by show base + s * stride - base = stride * s; omega⟩,
      ⟨e - s, by
        show base + s * stride + (e - s) * stride - (base + s * stride)
          = stride * (e - s)
        omega⟩⟩
  · by_cases h0 : it.len = 0
    · unfold RegArrayIter.stepFwd RegArrayIter.next
      rw [if_pos h0]
      exact hit
    · unfold RegArrayIter.stepFwd RegArrayIter.next
      rw [if_neg h0]
      exact RegArrayIter.inv_start_add hit it.stride (dvd_refl _)
        (by have := hlen1 (Nat.pos_of_ne_zero h0); omega)
  · by_cases h0 : it.len = 0
    · unfold RegArrayIter.stepBwd RegArrayIter.nextBack
      rw [if_pos h0]
      exact hit
    · unfold RegArrayIter.stepBwd RegArrayIter.nextBack
      rw [if_neg h0]
      exact RegArrayIter.inv_stop_sub hit it.stride (dvd_refl _)
        (hlen1 (Nat.pos_of_ne_zero h0))
  · by_cases hk : it.len ≤ k
    · unfold RegArrayIter.nth
      rw [if_pos hk]
      have heq : it.start + (it.stop - it.start) = it.stop := by
        have := hit.2.2.1
        omega
      have hres := RegArrayIter.inv_start_add hit (it.stop - it.start)
        hit.2.2.2.2.2 (by omega)
      rw [heq] at hres
      exact hres
    · unfold RegArrayIter.nth
      rw [if_neg hk]
      refine RegArrayIter.inv_start_add hit ((k + 1) * it.stride)
        ⟨k + 1, Nat.mul_comm (k + 1) it.stride⟩ ?_
      have hmono : (k + 1) * it.stride ≤ it.len * it.stride :=
        Nat.mul_le_mul_right it.stride (by omega)
      have hmc : it.len * it.stride = it.stride * it.len :=
        Nat.mul_comm it.len it.stride
      omega
  · by_cases hk : it.len ≤ k
    · unfold RegArrayIter.nthBack
      rw [if_pos hk]
      have heq : it.stop - (it.stop - it.start) = it.start := by
        have := hit.2.2.1
        omega
      have hres := RegArrayIter.inv_stop_sub hit (it.stop - it.start)
        hit.2.2.2.2.2 (by omega)
      rw [heq] at hres
      exact hres
    · unfold RegArrayIter.nthBack
      rw [if_neg hk]
      refine RegArrayIter.inv_stop_sub hit ((k + 1) * it.stride)
        ⟨k + 1, Nat.mul_comm (k + 1) it.stride⟩ ?_
      have hmono : (k + 1) * it.stride ≤ it.len * it.stride :=
        Nat.mul_le_mul_right it.stride (by omega)
      have hmc : it.len * it.stride = it.stride * it.len :=
        Nat.mul_comm it.len it.stride
      omega
  · exact hit
  · intro h0
    have hf := RegArrayIter.stepFwd_facts hwf
    have hb := RegArrayIter.stepBwd_facts hwf
    refine ⟨?_, hf.2, ?_, hb.2⟩
    · unfold RegArrayIter.next
      rw [if_neg (by omega)]
      rfl
    · unfold RegArrayIter.nextBack
      rw [if_neg (by omega)]
      rfl

/-- Witness for C10: a fresh length-3, stride-4 iterator at base 0 satisfies
the invariant, and its forward step preserves it. -/
theorem c10_iterator_invariant_witness :
    RegArrayIter.Inv 0 3 (RegArrayIter.new (fun x => x) 0 3 4) ∧
    RegArrayIter.Inv 0 3
      ((RegArrayIter.new (fun x => x) 0 3 4).stepFwd) :=
  ⟨by refine ⟨by decide, by decide, by decide, by decide, ⟨0, by decide⟩,
      ⟨3, by decide⟩⟩,
    (c10_iterator_invariant (fun x => x) 0 3 4 (RegArrayIter.new (fun x => x) 0 3 4)
      1 1 2 (by decide) (by decide) (by decide)
      ⟨by decide, by decide, by decide, by decide, ⟨0, by decide⟩,
        ⟨3, by decide⟩⟩).2.2.1⟩

end RegMap
